import Mathlib

/-!
Verification of the token-distribution and type-conversion core
(`crates/commander-core/src/raw.rs`).

The data model and the operations are shallowly embedded from the Rust
source: `Raw` is the token group (a wrapper around `Vec<String>`),
`Raw.divide_cmd` and `Raw.divide_opt` are the two distribution operations,
and the `impl_primitive` / `impl_option` / `impl_vec` / `impl_option_vec`
macro bodies become Lean functions parameterised over the per-type
`parse` function and `default` value the macro instantiates them with.
-/

/-- Modelled from the spec: `ArgumentType` (external crate type) declares a
parameter's arity kind; the four variants are matched in `divide_cmd` and
`divide_opt`. -/
inductive ArgumentType where
  | RequiredSingle
  | OptionalSingle
  | RequiredMultiple
  | OptionalMultiple
deriving DecidableEq, Repr

/-- Modelled from the spec: a parameter descriptor (`Argument`, external)
exposing its arity kind `ty`, the only field this core reads. -/
structure Argument where
  ty : ArgumentType
deriving DecidableEq, Repr

/-- Modelled from the spec: an `Instance` (external) carries the raw,
already-tokenized argument sequence `args` consumed by distribution. -/
structure Instance where
  args : List String
deriving DecidableEq, Repr

/-- `Raw(Vec<String>)`: an ordered token group. -/
structure Raw where
  val : List String
deriving DecidableEq, Repr

/-- `Raw::new(v)`. -/
def Raw.new (v : List String) : Raw := ⟨v⟩

/-- `Raw::push(ele)`: appends a token. -/
def Raw.push (r : Raw) (ele : String) : Raw := ⟨r.val ++ [ele]⟩

/-- `Raw::is_empty()`: `len() == 0`. -/
def Raw.is_empty (r : Raw) : Bool := r.val.length == 0

/-- The `while let Some(raw_str) = iter.next) { raw.push(...) }` loop from
the `Multiple` arms: pushes every remaining token of the cursor. -/
def Raw.pushAll (r : Raw) : List String → Raw
  | [] => r
  | t :: ts => Raw.pushAll (r.push t) ts

/-- One iteration of the `for arg in args` loop body of `Raw::divide_cmd`:
for the given arity kind, pull tokens from the cursor `iter` into a fresh
group, returning the group together with the advanced cursor.  The four
arms mirror the Rust `match ty`. -/
def consumeArg (ty : ArgumentType) (iter : List String) : Raw × List String :=
  match ty with
  | .RequiredSingle =>
      match iter with
      | [] => (Raw.new [], [])
      | t :: rest => ((Raw.new []).push t, rest)
  | .OptionalSingle =>
      match iter with
      | [] => (Raw.new [], [])
      | t :: rest => ((Raw.new []).push t, rest)
  | .RequiredMultiple => ((Raw.new []).pushAll iter, [])
  | .OptionalMultiple => ((Raw.new []).pushAll iter, [])

/-- The `for arg in args` loop of `Raw::divide_cmd`, with the iterator made
explicit as the list of tokens not yet consumed. -/
def divideCmdLoop : List Argument → List String → List Raw
  | [], _ => []
  | arg :: rest, iter =>
      (consumeArg arg.ty iter).1 :: divideCmdLoop rest (consumeArg arg.ty iter).2

/-- `Raw::divide_cmd(ins, args)`: one token group per descriptor, produced
over a single shared cursor into `ins.args`. -/
def Raw.divide_cmd (ins : Instance) (args : List Argument) : List Raw :=
  divideCmdLoop args ins.args

/-- The cursor state after the loop of `divide_cmd` has processed the given
descriptors: the tokens left unconsumed. -/
def cursorAfter : List Argument → List String → List String
  | [], iter => iter
  | arg :: rest, iter => cursorAfter rest (consumeArg arg.ty iter).2

/-- `Raw::divide_opt(ins, arg)`: distribution for a single optional
descriptor over a fresh cursor `ins.args`; written out arm by arm exactly
as in the source (independently of `divide_cmd`). -/
def Raw.divide_opt (ins : Instance) (arg : Option Argument) : Raw :=
  match arg with
  | some arg =>
      match arg.ty with
      | .RequiredSingle =>
          match ins.args with
          | [] => Raw.new []
          | t :: _ => (Raw.new []).push t
      | .OptionalSingle =>
          match ins.args with
          | [] => Raw.new []
          | t :: _ => (Raw.new []).push t
      | .RequiredMultiple => (Raw.new []).pushAll ins.args
      | .OptionalMultiple => (Raw.new []).pushAll ins.args
  | none => Raw.new []

/-! ### Conversion protocol

The Rust side instantiates four macros per concrete primitive type; each
expansion differs only in the `FromStr::parse` implementation and the
`Default::default` value of the target type.  The macro bodies are embedded
as functions parameterised over that `parse` function and default value,
together with faithful models of `FromStr` for the primitive types the
source instantiates. -/

/-- Parses a nonempty, all-decimal-digit character list as a natural
number (the digit loop of Rust's integer `FromStr`); `none` on an empty
list or any non-digit character. -/
def digitsToNat : List Char → Option Nat
  | [] => none
  | cs => digitsAux cs 0
where
  digitsAux : List Char → Nat → Option Nat
    | [], acc => some acc
    | c :: cs, acc =>
        if c.isDigit then digitsAux cs (acc * 10 + (c.toNat - 48)) else none

/-- Rust `FromStr` for an unsigned integer of width `bits` (`u8` … `u128`,
`usize`): optional leading `+`, then decimal digits; fails on a sign-only
or empty string, any non-digit (including `-`), or overflow. -/
def parse_u (bits : Nat) (s : String) : Option Nat :=
  let digits :=
    match s.data with
    | '+' :: rest => rest
    | cs => cs
  match digitsToNat digits with
  | some n => if n < 2 ^ bits then some n else none
  | none => none

/-- Rust `FromStr` for a signed integer of width `bits` (`i8` … `i128`,
`isize`): optional leading `+` or `-`, then decimal digits; fails on a
sign-only or empty string, any non-digit, or a value outside
`[-2^(bits-1), 2^(bits-1) - 1]`. -/
def parse_i (bits : Nat) (s : String) : Option Int :=
  match s.data with
  | '+' :: rest =>
      (digitsToNat rest).bind fun n =>
        if (n : Int) ≤ 2 ^ (bits - 1) - 1 then some (n : Int) else none
  | '-' :: rest =>
      (digitsToNat rest).bind fun n =>
        if (n : Int) ≤ 2 ^ (bits - 1) then some (-(n : Int)) else none
  | cs =>
      (digitsToNat cs).bind fun n =>
        if (n : Int) ≤ 2 ^ (bits - 1) - 1 then some (n : Int) else none

/-- Rust `FromStr` for `bool`: exactly `"true"` or `"false"`. -/
def parse_bool (s : String) : Option Bool :=
  if s = "true" then some true else if s = "false" then some false else none

/-- Rust `FromStr` for `char`: succeeds exactly on one-character strings. -/
def parse_char (s : String) : Option Char :=
  match s.data with
  | [c] => some c
  | _ => none

/-- Rust `char::default()`, the NUL character. -/
def char_default : Char := Char.ofNat 0

/-- Macro `impl_primitive`: `raw.get(0).unwrap_or(&String::from("0"))
.parse().unwrap_or(default)`, with the per-type `parse` and `default`
passed explicitly. -/
def impl_primitive {α : Type} (p : String → Option α) (d : α) (raw : Raw) : α :=
  (p ((raw.val.get? 0).getD "0")).getD d

/-- Macro `impl_option`: `None` on an empty group, else `Some` of the base
conversion `<$ty>::from(raw)` (passed as `conv`) of the whole group. -/
def impl_option {α : Type} (conv : Raw → α) (raw : Raw) : Option α :=
  if raw.is_empty then none else some (conv raw)

/-- Macro `impl_vec`: `raw.iter().map(|i| i.parse().unwrap_or(default))
.collect()`. -/
def impl_vec {α : Type} (p : String → Option α) (d : α) (raw : Raw) : List α :=
  raw.val.map fun i => (p i).getD d

/-- Macro `impl_option_vec`: `None` on an empty group, else `Some` of the
sequence conversion `<Vec<$ty>>::from(raw)` (passed as `conv`). -/
def impl_option_vec {α : Type} (conv : Raw → List α) (raw : Raw) : Option (List α) :=
  if raw.is_empty then none else some (conv raw)

/-- `From<Raw> for String`: `raw.get(0).unwrap_or(&String::new()).clone()`. -/
def string_from_raw (raw : Raw) : String :=
  (raw.val.get? 0).getD ""

/-- `From<Raw> for Vec<String>`: `raw.iter().map(|s| s.clone()).collect()`. -/
def vec_string_from_raw (raw : Raw) : List String :=
  raw.val.map fun s => s

/-- `From<Raw> for Option<String>`. -/
def option_string_from_raw (raw : Raw) : Option String :=
  if raw.is_empty then none else some (string_from_raw raw)

/-- `From<Raw> for Option<Vec<String>>`. -/
def option_vec_string_from_raw (raw : Raw) : Option (List String) :=
  if raw.is_empty then none else some (vec_string_from_raw raw)

/-- `From<Raw> for i32` (`impl_all![.., i32, ..]`), modelling `i32` as an
`Int` constrained by the 32-bit parse bounds. -/
def i32_from_raw : Raw → Int := impl_primitive (parse_i 32) 0

/-- `From<Raw> for Option<i32>`. -/
def option_i32_from_raw : Raw → Option Int := impl_option i32_from_raw

/-- `From<Raw> for Vec<i32>`. -/
def vec_i32_from_raw : Raw → List Int := impl_vec (parse_i 32) 0

/-- `From<Raw> for Option<Vec<i32>>`. -/
def option_vec_i32_from_raw : Raw → Option (List Int) :=
  impl_option_vec vec_i32_from_raw

/-- `From<Raw> for bool`. -/
def bool_from_raw : Raw → Bool := impl_primitive parse_bool false

/-- `From<Raw> for char`. -/
def char_from_raw : Raw → Char := impl_primitive parse_char char_default

/-! ### Basic lemmas about the distributor -/

theorem Raw.pushAll_val (r : Raw) (ts : List String) :
    (r.pushAll ts).val = r.val ++ ts := by
  induction ts generalizing r with
  | nil => simp [Raw.pushAll]
  | cons t ts ih => simp [Raw.pushAll, ih, Raw.push]

theorem Raw.pushAll_new (ts : List String) :
    (Raw.new []).pushAll ts = Raw.new ts := by
  have h := Raw.pushAll_val (Raw.new []) ts
  simp only [Raw.new, List.nil_append] at h
  calc (Raw.new []).pushAll ts = ⟨((Raw.new []).pushAll ts).val⟩ := rfl
    _ = ⟨ts⟩ := by simp only [Raw.new]; rw [h]

theorem consumeArg_join (ty : ArgumentType) (iter : List String) :
    (consumeArg ty iter).1.val ++ (consumeArg ty iter).2 = iter := by
  cases ty <;> cases iter <;>
    simp [consumeArg, Raw.new, Raw.push, Raw.pushAll_val]

theorem divideCmdLoop_length (args : List Argument) (iter : List String) :
    (divideCmdLoop args iter).length = args.length := by
  induction args generalizing iter with
  | nil => simp [divideCmdLoop]
  | cons a rest ih => simp [divideCmdLoop, ih]

theorem divideCmdLoop_append (l₁ l₂ : List Argument) (iter : List String) :
    divideCmdLoop (l₁ ++ l₂) iter =
      divideCmdLoop l₁ iter ++ divideCmdLoop l₂ (cursorAfter l₁ iter) := by
  induction l₁ generalizing iter with
  | nil => simp [divideCmdLoop, cursorAfter]
  | cons a rest ih => simp [divideCmdLoop, cursorAfter, ih]

theorem divideCmdLoop_join (args : List Argument) (iter : List String) :
    ((divideCmdLoop args iter).map Raw.val).flatten ++ cursorAfter args iter
      = iter := by
  induction args generalizing iter with
  | nil => simp [divideCmdLoop, cursorAfter]
  | cons a rest ih =>
      simp only [divideCmdLoop, cursorAfter, List.map_cons, List.flatten_cons,
        List.append_assoc]
      rw [ih]
      exact consumeArg_join a.ty iter

theorem consumeArg_nil (ty : ArgumentType) :
    consumeArg ty [] = (Raw.new [], []) := by
  cases ty <;> simp [consumeArg, Raw.pushAll]

theorem divideCmdLoop_nil_iter (args : List Argument) :
    divideCmdLoop args [] = args.map (fun _ => Raw.new []) := by
  induction args with
  | nil => simp [divideCmdLoop]
  | cons a rest ih => simp [divideCmdLoop, consumeArg_nil, ih]

/-! ### Claims -/

/-- C1: `divide_cmd` returns exactly one token group per input descriptor,
and the groups appear in the same order as their descriptors: the output
length equals the descriptor count, splitting the descriptor list anywhere
splits the output accordingly, and the group at the split point is exactly
the one the descriptor at that position extracts from the cursor state
reached there. -/
theorem divide_cmd_one_group_per_descriptor (ins : Instance) (l₁ l₂ : List Argument) :
    (Raw.divide_cmd ins (l₁ ++ l₂)).length = l₁.length + l₂.length ∧
    Raw.divide_cmd ins (l₁ ++ l₂) =
      divideCmdLoop l₁ ins.args ++ divideCmdLoop l₂ (cursorAfter l₁ ins.args) ∧
    (Raw.divide_cmd ins (l₁ ++ l₂)).get? l₁.length =
      ((l₁ ++ l₂).get? l₁.length).map
        (fun a => (consumeArg a.ty (cursorAfter l₁ ins.args)).1) := by
  refine ⟨by simpa using divideCmdLoop_length (l₁ ++ l₂) ins.args,
    divideCmdLoop_append l₁ l₂ ins.args, ?_⟩
  rw [Raw.divide_cmd, divideCmdLoop_append l₁ l₂ ins.args,
    List.get?_append_right (by simpa using (divideCmdLoop_length l₁ ins.args).le),
    divideCmdLoop_length l₁ ins.args, Nat.sub_self,
    List.get?_append_right (le_refl l₁.length), Nat.sub_self]
  cases l₂ with
  | nil => rfl
  | cons b rest => simp [divideCmdLoop]

/-- C2: tokens consumed by an earlier descriptor never reappear later —
the groups and the leftover cursor partition the original token sequence —
and concatenating the groups' tokens in order yields a prefix of the
original sequence (the sequence truncated where consumption stops). -/
theorem divide_cmd_partitions_tokens (ins : Instance) (args : List Argument) :
    ((Raw.divide_cmd ins args).map Raw.val).flatten ++ cursorAfter args ins.args
        = ins.args ∧
    ((Raw.divide_cmd ins args).map Raw.val).flatten =
      ins.args.take (((Raw.divide_cmd ins args).map Raw.val).flatten).length := by
  have h := divideCmdLoop_join args ins.args
  refine ⟨h, ?_⟩
  conv_rhs => rw [← h]
  simp [Raw.divide_cmd]

/-- C3: a `RequiredMultiple`/`OptionalMultiple` descriptor receives every
token remaining in the cursor at the point it is processed, and every
descriptor after it receives an empty group. -/
theorem multiple_drains_remaining_tokens (ins : Instance) (l₁ l₂ : List Argument)
    (a : Argument)
    (h : a.ty = ArgumentType.RequiredMultiple ∨ a.ty = ArgumentType.OptionalMultiple) :
    Raw.divide_cmd ins (l₁ ++ a :: l₂) =
      divideCmdLoop l₁ ins.args ++
        Raw.new (cursorAfter l₁ ins.args) :: l₂.map (fun _ => Raw.new []) := by
  rw [Raw.divide_cmd, divideCmdLoop_append]
  congr 1
  rcases h with h | h <;>
    simp [divideCmdLoop, consumeArg, h, Raw.pushAll_new, divideCmdLoop_nil_iter]

/-- Witness for C3: distributing `["a","b","c"]` over
`[RequiredSingle, OptionalMultiple, RequiredSingle]` puts `["b","c"]` into
the `OptionalMultiple` group and leaves the trailing descriptor empty. -/
theorem multiple_drains_remaining_tokens_witness :
    Raw.divide_cmd ⟨["a", "b", "c"]⟩
        [⟨.RequiredSingle⟩, ⟨.OptionalMultiple⟩, ⟨.RequiredSingle⟩] =
      divideCmdLoop [⟨.RequiredSingle⟩] ["a", "b", "c"] ++
        Raw.new (cursorAfter [⟨.RequiredSingle⟩] ["a", "b", "c"]) ::
          List.map (fun _ => Raw.new []) [(⟨.RequiredSingle⟩ : Argument)] :=
  multiple_drains_remaining_tokens ⟨["a", "b", "c"]⟩ [⟨.RequiredSingle⟩]
    [⟨.RequiredSingle⟩] ⟨.OptionalMultiple⟩ (Or.inr rfl)

/-- C7: `divide_opt` with no descriptor returns an empty token group,
whatever the tokens are. -/
theorem divide_opt_none_returns_empty_group (ins : Instance) :
    Raw.divide_opt ins none = Raw.new [] := rfl

/-- C8: for a single descriptor, `divide_opt` produces exactly the one
group `divide_cmd` produces for the singleton descriptor list over the
same tokens: the two operations apply the identical per-arity rule. -/
theorem divide_opt_agrees_with_divide_cmd (ins : Instance) (a : Argument) :
    Raw.divide_cmd ins [a] = [Raw.divide_opt ins (some a)] := by
  cases h : a.ty <;> cases hi : ins.args <;>
    simp [Raw.divide_cmd, divideCmdLoop, consumeArg, Raw.divide_opt, h, hi]

/-- C10: `divide_cmd` with an empty descriptor list returns no groups and
consumes no tokens (the cursor is untouched), whatever the tokens are. -/
theorem divide_cmd_empty_descriptor_list (ins : Instance) :
    Raw.divide_cmd ins [] = [] ∧ cursorAfter [] ins.args = ins.args :=
  ⟨rfl, rfl⟩

/-! ### Conversion claims -/

theorem parse_i_zero_string (bits : Nat) : parse_i bits "0" = some 0 := by
  have h2 : (0 : Int) < 2 ^ (bits - 1) := pow_pos (by norm_num) _
  have h : parse_i bits "0"
      = if (0 : Int) ≤ 2 ^ (bits - 1) - 1 then some (0 : Int) else none := rfl
  rw [h, if_pos (by omega)]

theorem parse_u_zero_string (bits : Nat) : parse_u bits "0" = some 0 := by
  have h2 : 0 < 2 ^ bits := Nat.pos_pow_of_pos bits (by norm_num)
  have h : parse_u bits "0"
      = if 0 < 2 ^ bits then some 0 else none := rfl
  rw [h, if_pos h2]

/-- C4 counterexample: converting an empty group to `char` yields the
digit character `'0'` — the code substitutes the literal string `"0"`
before parsing, and `"0"` parses as a `char` — not `char`'s default
`'\0'`; a genuine parse failure does yield the default, so the missing-
token fallback and the parse-failure fallback disagree for `char`,
refuting the claim that both yield the type's zero/default value. -/
theorem char_empty_group_breaks_default_fallback :
    char_from_raw (Raw.new []) = '0' ∧
    char_from_raw (Raw.new ["ab"]) = char_default ∧
    ('0' : Char) ≠ char_default := by
  refine ⟨rfl, rfl, by decide⟩

/-- C4 (amended): scalar conversion reads only the first token; for the
integer types of every width and for `bool`, a missing first token or a
parse failure yields the type's zero/default; for `char`, a parse failure
yields the default NUL but an empty group yields `'0'`; a successfully
parsed first token is returned as-is (so `["42","7"]` converts to `42`). -/
theorem scalar_conversion_first_token_fallback {α : Type}
    (bits : Nat) (raw : Raw) (t : String) (rest : List String)
    (p : String → Option α) (d : α) (r₁ r₂ : Raw) :
    (raw.val = [] →
      impl_primitive (parse_i bits) 0 raw = 0 ∧
      impl_primitive (parse_u bits) 0 raw = 0 ∧
      impl_primitive parse_bool false raw = false ∧
      impl_primitive parse_char char_default raw = '0') ∧
    (raw.val = t :: rest →
      (parse_i bits t = none → impl_primitive (parse_i bits) 0 raw = 0) ∧
      (parse_u bits t = none → impl_primitive (parse_u bits) 0 raw = 0) ∧
      (parse_bool t = none → impl_primitive parse_bool false raw = false) ∧
      (parse_char t = none →
        impl_primitive parse_char char_default raw = char_default) ∧
      (∀ v : Int, parse_i bits t = some v →
        impl_primitive (parse_i bits) 0 raw = v)) ∧
    (r₁.val.get? 0 = r₂.val.get? 0 →
      impl_primitive p d r₁ = impl_primitive p d r₂) ∧
    i32_from_raw (Raw.new ["42", "7"]) = 42 := by
  refine ⟨fun he => ?_, fun h => ?_, fun h => ?_, by decide⟩
  · refine ⟨?_, ?_, ?_, ?_⟩ <;>
      simp [impl_primitive, he, parse_i_zero_string, parse_u_zero_string] <;> rfl
  · have hget : raw.val.get? 0 = some t := by rw [h]; rfl
    simp only [List.get?_eq_getElem?] at hget
    refine ⟨fun hp => ?_, fun hp => ?_, fun hp => ?_, fun hp => ?_, fun v hv => ?_⟩ <;>
      simp [impl_primitive, hget, *]
  · simp only [List.get?_eq_getElem?] at h
    simp [impl_primitive, h]

/-- Witness for C4 (amended), at concrete groups: an empty group converts
to `0` as an 8-bit integer, `["x"]` converts to `false` as a `bool`, and
`["42","7"]` converts to `42` as an `i32`. -/
theorem scalar_conversion_first_token_fallback_witness :
    impl_primitive (parse_i 8) 0 (Raw.new []) = 0 ∧
    impl_primitive parse_bool false (Raw.new ["x"]) = false ∧
    i32_from_raw (Raw.new ["42", "7"]) = 42 := by
  refine ⟨?_, ?_, ?_⟩
  · exact ((scalar_conversion_first_token_fallback 8 (Raw.new []) "x" []
      (parse_i 8) 0 (Raw.new []) (Raw.new [])).1 rfl).1
  · exact (((scalar_conversion_first_token_fallback 8 (Raw.new ["x"]) "x" []
      (parse_i 8) 0 (Raw.new []) (Raw.new [])).2.1 rfl).2.2.1 (by decide))
  · exact (scalar_conversion_first_token_fallback 8 (Raw.new []) "x" []
      (parse_i 8) 0 (Raw.new []) (Raw.new [])).2.2.2

/-- C5: every optional conversion — the `impl_option` macro body for any
base conversion, the `impl_option_vec` macro body for any sequence
conversion, and the hand-written `Option<String>` / `Option<Vec<String>>`
impls — returns `none` exactly on the empty group and otherwise `some` of
the corresponding base conversion applied to the whole group. -/
theorem optional_conversion_none_iff_empty {α β : Type}
    (conv : Raw → α) (vconv : Raw → List β) (raw : Raw) :
    (impl_option conv raw = none ↔ raw.val = []) ∧
    (raw.val ≠ [] → impl_option conv raw = some (conv raw)) ∧
    (impl_option_vec vconv raw = none ↔ raw.val = []) ∧
    (raw.val ≠ [] → impl_option_vec vconv raw = some (vconv raw)) ∧
    (option_string_from_raw raw = none ↔ raw.val = []) ∧
    (raw.val ≠ [] → option_string_from_raw raw = some (string_from_raw raw)) ∧
    (option_vec_string_from_raw raw = none ↔ raw.val = []) ∧
    (raw.val ≠ [] →
      option_vec_string_from_raw raw = some (vec_string_from_raw raw)) := by
  by_cases h : raw.val = [] <;>
    · have hb : raw.is_empty = (raw.val.length == 0) := rfl
      simp [impl_option, impl_option_vec, option_string_from_raw,
        option_vec_string_from_raw, hb, List.length_eq_zero, h]

/-- Witness for C5 at concrete groups: `["42"]` converts to `some 42` as
an optional `i32`, the empty group converts to `none` as an optional
`Vec<i32>`, and `["x"]` converts to `some "x"` as an optional `String`. -/
theorem optional_conversion_none_iff_empty_witness :
    impl_option i32_from_raw (Raw.new ["42"]) = some 42 ∧
    impl_option_vec vec_i32_from_raw (Raw.new []) = none ∧
    option_string_from_raw (Raw.new ["x"]) = some "x" := by
  have h1 := (optional_conversion_none_iff_empty i32_from_raw vec_i32_from_raw
    (Raw.new ["42"])).2.1 (by decide)
  have h2 := (optional_conversion_none_iff_empty i32_from_raw vec_i32_from_raw
    (Raw.new [])).2.2.1.mpr rfl
  have h3 := (optional_conversion_none_iff_empty i32_from_raw vec_i32_from_raw
    (Raw.new ["x"])).2.2.2.2.2.1 (by decide)
  refine ⟨?_, h2, ?_⟩
  · rw [h1]; decide
  · rw [h3]; rfl

/-- C6: sequence conversion maps every token independently through the
per-type parse rule with per-element default fallback, preserving length,
order and position (the `i`-th output element comes from the `i`-th token
alone); an empty group yields the empty sequence; `["1","a","3"]`
converts to `[1, 0, 3]` as a `Vec<i32>`, and `Vec<String>` conversion is
the identity on the token list. -/
theorem sequence_conversion_elementwise {α : Type}
    (p : String → Option α) (d : α) (raw : Raw) (i : Nat) :
    (impl_vec p d raw).length = raw.val.length ∧
    (impl_vec p d raw).get? i = (raw.val.get? i).map (fun t => (p t).getD d) ∧
    impl_vec p d (Raw.new []) = ([] : List α) ∧
    vec_i32_from_raw (Raw.new ["1", "a", "3"]) = [1, 0, 3] ∧
    vec_string_from_raw raw = raw.val := by
  refine ⟨by simp [impl_vec], ?_, rfl, by decide, by simp [vec_string_from_raw]⟩
  simp [impl_vec, List.get?_map]

/-- C9: no conversion of this core can fail: a scalar parse failure falls
back to the supplied per-type default, each failing element of a sequence
conversion falls back to the default at its own position, `String`
conversion of an empty group falls back to the empty string, and the
optional forms always return `none` or `some` of the base conversion.
Totality itself is by construction: every embedded conversion is a plain
function from groups into the bare target type, mirroring the Rust impls
returning `T` rather than a `Result`. -/
theorem conversions_never_fail {α β : Type} (p : String → Option α) (d : α)
    (conv : Raw → β) (vconv : Raw → List β) (raw : Raw) (i : Nat) :
    (∀ t, raw.val.get? 0 = some t → p t = none → impl_primitive p d raw = d) ∧
    (raw.val = [] → p "0" = none → impl_primitive p d raw = d) ∧
    (∀ t, raw.val.get? i = some t → p t = none →
      (impl_vec p d raw).get? i = some d) ∧
    (raw.val = [] → string_from_raw raw = "") ∧
    (impl_option conv raw = none ∨ impl_option conv raw = some (conv raw)) ∧
    (impl_option_vec vconv raw = none ∨
      impl_option_vec vconv raw = some (vconv raw)) := by
  refine ⟨?_, ?_, ?_, ?_, ?_, ?_⟩
  · intro t ht hp
    simp only [List.get?_eq_getElem?] at ht
    simp [impl_primitive, ht, hp]
  · intro he hp; simp [impl_primitive, he, hp]
  · intro t ht hp
    simp only [List.get?_eq_getElem?] at ht
    simp [impl_vec, List.getElem?_map, ht, hp]
  · intro he; simp [string_from_raw, he]
  · by_cases h : raw.is_empty <;> simp [impl_option, h]
  · by_cases h : raw.is_empty <;> simp [impl_option_vec, h]

/-- Witness for C9 at concrete groups: a non-numeric token converts to
`0` as an `i32`, the failing middle element of `["1","a"]` becomes `0` in
the sequence conversion, and the empty group converts to `""`. -/
theorem conversions_never_fail_witness :
    impl_primitive (parse_i 32) 0 (Raw.new ["oops"]) = 0 ∧
    (impl_vec (parse_i 32) 0 (Raw.new ["1", "a"])).get? 1 = some 0 ∧
    string_from_raw (Raw.new []) = "" := by
  refine ⟨?_, ?_, ?_⟩
  · exact (conversions_never_fail (parse_i 32) 0 i32_from_raw vec_i32_from_raw
      (Raw.new ["oops"]) 0).1 "oops" rfl (by decide)
  · exact (conversions_never_fail (parse_i 32) 0 i32_from_raw vec_i32_from_raw
      (Raw.new ["1", "a"]) 1).2.2.1 "a" rfl (by decide)
  · exact (conversions_never_fail (parse_i 32) 0 i32_from_raw vec_i32_from_raw
      (Raw.new []) 0).2.2.2.1 rfl
